import Mathlib

/-! Shallow embedding of mayl (src/main.rs), a tenant-scoped outbound
mail relay: a SQLite-backed delivery queue, archive, domain registry and
SMTP credential store, together with proofs about the delivery worker,
the archive culler, registration/seeding and the authorization gate.

Tables are modelled as Lean lists kept in rowid (insertion) order.
Wall-clock times (`now_millis()`) and freshly generated UUIDs are passed
in as explicit parameters, and the outcome of each SMTP transport call
is an explicit oracle argument, since those are the only
non-deterministic inputs of the source functions. -/

namespace Mayl

/-- Rust `str::to_lowercase`, character-wise (ASCII-faithful). -/
def lowercaseList (l : List Char) : List Char := l.map Char.toLower

/-- Rust `str::trim`: strip leading and trailing whitespace. -/
def trimList (l : List Char) : List Char :=
  ((l.dropWhile Char.isWhitespace).reverse.dropWhile Char.isWhitespace).reverse

/-- Rust `str::split(sep)` with a single separator character: `"a@"`
splits into `["a", ""]` and `""` splits into `[""]`. -/
def splitOnChar (sep : Char) : List Char → List (List Char)
  | [] => [[]]
  | c :: cs =>
    match splitOnChar sep cs with
    | [] => if c == sep then [[], []] else [[c]]
    | p :: ps => if c == sep then [] :: p :: ps else (c :: p) :: ps

/-- The slice selection of lines 226–231 of src/main.rs: the text
between the first `<` and the first `>` when a `<` is present (`None`
when the `>` is missing), the whole string otherwise.  The Rust byte
slice `&from[start+1..end]` is `drop (start+1)` followed by
`take (end-(start+1))` on the character list; when `end < start+1` the
Rust code would panic while this model yields the empty slice — no
claim touches that corner. -/
def extract_addr_part (from_addr : List Char) : Option (List Char) :=
  match from_addr.findIdx? (fun c => c == '<') with
  | some s =>
    match from_addr.findIdx? (fun c => c == '>') with
    | none => none
    | some e => some ((from_addr.drop (s + 1)).take (e - (s + 1)))
  | none => some from_addr

/-- Lines 224–233 (`extract_domain_from_addr`): handle
`Name <user@domain>` or plain `user@domain`, returning the lowercased
part after the first `@` of the address part, if any
(`addr.split('@').nth(1).map(|d| d.to_lowercase())`). -/
def extract_domain_from_addr (from_addr : List Char) : Option (List Char) :=
  match extract_addr_part from_addr with
  | none => none
  | some addr =>
    match (splitOnChar '@' addr)[1]? with
    | none => none
    | some d => some (lowercaseList d)

/-- Queue row statuses; the source stores the strings `pending` and
`sending`. -/
inductive QStatus where
  | pending
  | sending
deriving DecidableEq

/-- Row of the `domains` table. -/
structure DomainRow where
  domain : List Char
  token : String
  created_at : Int
deriving DecidableEq

/-- Row of the `email_queue` table.  `to_addrs` is stored by the source
as a JSON array of strings; the model keeps the list itself, since the
source only serializes at enqueue time and deserializes in the worker. -/
structure QueueRow where
  id : String
  status : QStatus
  from_addr : List Char
  to_addrs : List String
  subject : String
  body : String
  html : Option String
  created_at : Int
  attempts : Nat
  last_error : Option String
deriving DecidableEq

/-- Row of the `email_archive` table.  The INTEGER PRIMARY KEY `id` is
set explicitly by the source to `now_millis()` at insert time (lines
755 and 862). -/
structure ArchiveRow where
  id : Int
  queue_id : String
  from_addr : List Char
  to_addrs : List String
  subject : String
  body : String
  html : Option String
  sent_at : Int
deriving DecidableEq

/-- The four SQLite tables of `init_db`, each in rowid order. -/
structure DB where
  queue : List QueueRow
  archive : List ArchiveRow
  domains : List DomainRow
  config : List (String × String)
deriving DecidableEq

/-- In-memory SMTP credential cell (struct `SmtpCredentials`). -/
structure SmtpCredentials where
  user : String
  pass : String
deriving DecidableEq

/-- Result of `create_domain_handler`. -/
inductive RegisterResult where
  | created (domain : List Char) (token : String)
  | validationError
  | conflictError
deriving DecidableEq

/-- Lines 504–541 (`create_domain_handler`): trim and lowercase the
requested domain, reject an empty or dot-free result (400), insert with
a fresh token mapping any insert failure (domain primary key or token
uniqueness) to 409, otherwise return 201 with the new row.  The fresh
UUID token and `now_millis()` are explicit parameters. -/
def create_domain_handler (db : DB) (payload_domain : List Char)
    (token : String) (now : Int) : RegisterResult × DB :=
  let domain := lowercaseList (trimList payload_domain)
  if domain.isEmpty || !(domain.contains '.') then
    (RegisterResult.validationError, db)
  else if db.domains.any (fun r => r.domain == domain) ||
      db.domains.any (fun r => r.token == token) then
    (RegisterResult.conflictError, db)
  else
    (RegisterResult.created domain token,
     { db with domains := db.domains ++ [⟨domain, token, now⟩] })

/-- One iteration of the `seed_domains` loop (lines 191–213): skip when
a row with exactly this domain string exists; otherwise insert the
domain verbatim with the fresh token, ignoring (logging only) an insert
failure.  Note the handler's trim/lowercase/validation steps are absent
in the source. -/
def seedOne (db : DB) (domain : List Char) (token : String) (now : Int) : DB :=
  if db.domains.any (fun r => r.domain == domain) then db
  else if db.domains.any (fun r => r.token == token) then db
  else { db with domains := db.domains ++ [⟨domain, token, now⟩] }

/-- Lines 191–213 (`seed_domains`): the loop over the configured domain
list, with each iteration's fresh token passed alongside its domain. -/
def seed_domains : DB → List (List Char × String) → Int → DB
  | db, [], _ => db
  | db, (d, t) :: rest, now => seed_domains (seedOne db d t now) rest now

/-- Result of `set_smtp_handler`. -/
inductive SetSmtpResult where
  | ok
  | validationError
deriving DecidableEq

/-- Upsert into the `config` key-value table
(`INSERT ... ON CONFLICT(key) DO UPDATE SET value = excluded.value`). -/
def configSet (cfg : List (String × String)) (key v : String) :
    List (String × String) :=
  if cfg.any (fun kv => kv.1 == key) then
    cfg.map (fun kv => if kv.1 == key then (key, v) else kv)
  else cfg ++ [(key, v)]

/-- First value stored under a key of the `config` table (`query_row`
returns the first matching row; `key` is the primary key). -/
def configGet (cfg : List (String × String)) (key : String) : Option String :=
  (cfg.find? (fun kv => kv.1 == key)).map (fun kv => kv.2)

/-- Lines 599–655 (`set_smtp_handler`): reject an empty user or pass
(400); otherwise persist both keys and replace the in-memory cell. -/
def set_smtp_handler (db : DB) (creds : SmtpCredentials)
    (user pass : String) : SetSmtpResult × DB × SmtpCredentials :=
  if user == "" || pass == "" then (SetSmtpResult.validationError, db, creds)
  else
    (SetSmtpResult.ok,
     { db with
       config := configSet (configSet db.config "smtp_user" user)
                   "smtp_pass" pass },
     ⟨user, pass⟩)

/-- Lines 938–954 of `main`: the credential cell starts from the two
environment values, then each of the two persisted `config` keys
overrides its own field independently of the other. -/
def init_smtp_creds (envUser envPass : String)
    (cfg : List (String × String)) : SmtpCredentials :=
  let user := match configGet cfg "smtp_user" with
    | some v => v
    | none => envUser
  let pass := match configGet cfg "smtp_pass" with
    | some v => v
    | none => envPass
  ⟨user, pass⟩

/-- Outcome of one SMTP transport call (`send_email`), supplied to the
model as an oracle. -/
inductive SendOutcome where
  | ok
  | err (msg : String)
deriving DecidableEq

/-- An `INSERT` into `email_archive` whose result is discarded
(`let _ = db.execute(...)`, lines 752 and 859): since `id` is the
INTEGER PRIMARY KEY, the insert fails — and is silently ignored —
exactly when a row with the same `id` already exists. -/
def archiveInsert (archive : List ArchiveRow) (row : ArchiveRow) :
    List ArchiveRow :=
  if archive.any (fun r => r.id == row.id) then archive else archive ++ [row]

/-- Result of `email_handler`, tagged by the HTTP status the source
returns. -/
inductive SubmitResult where
  | okQueued (id : String)
  | okSent (id : String)
  | unauthorizedMissing
  | unauthorizedToken
  | badFrom
  | forbidden (authorized from_domain : List Char)
  | emptyTo
  | smtpError (msg : String)
  | dbError
deriving DecidableEq

/-- Whether the handler reported success (HTTP 200 or 202). -/
def SubmitResult.isSuccess : SubmitResult → Bool
  | SubmitResult.okQueued _ => true
  | SubmitResult.okSent _ => true
  | _ => false

/-- Lines 659–794 (`email_handler`): resolve the bearer token to its
domain, extract and compare the `from` domain, then either send
synchronously (archiving on `save`, insert result ignored) or enqueue a
`pending` row.  `token` is the already-extracted Authorization value,
`sendResult` the transport oracle, `freshId` the generated UUID and
`now` the `now_millis()` value. -/
def email_handler (db : DB) (token : Option String) (sync save : Bool)
    (from_addr : List Char) (to_addrs : List String) (subject body : String)
    (html : Option String) (sendResult : SendOutcome)
    (freshId : String) (now : Int) : SubmitResult × DB :=
  match token with
  | none => (SubmitResult.unauthorizedMissing, db)
  | some tok =>
    match db.domains.find? (fun r => r.token == tok) with
    | none => (SubmitResult.unauthorizedToken, db)
    | some dr =>
      match extract_domain_from_addr from_addr with
      | none => (SubmitResult.badFrom, db)
      | some from_domain =>
        if from_domain != dr.domain then
          (SubmitResult.forbidden dr.domain from_domain, db)
        else if to_addrs.isEmpty then (SubmitResult.emptyTo, db)
        else if sync then
          match sendResult with
          | SendOutcome.err e => (SubmitResult.smtpError e, db)
          | SendOutcome.ok =>
            (SubmitResult.okSent freshId,
             if save then
               { db with
                 archive := archiveInsert db.archive
                   ⟨now, freshId, from_addr, to_addrs, subject, body, html,
                    now⟩ }
             else db)
        else
          if db.queue.any (fun r => r.id == freshId) then
            (SubmitResult.dbError, db)
          else
            (SubmitResult.okQueued freshId,
             { db with
               queue := db.queue ++
                 [⟨freshId, QStatus.pending, from_addr, to_addrs, subject,
                   body, html, now, 0, none⟩] })

/-- Ordered insert for the model of SQL `ORDER BY`. -/
def insertBy {α : Type} (key : α → Int) (a : α) : List α → List α
  | [] => [a]
  | b :: l => if key a ≤ key b then a :: b :: l else b :: insertBy key a l

/-- Stable insertion sort by an integer key, modelling `ORDER BY`
(within equal keys SQLite scans in table order, i.e. stably). -/
def sortByKey {α : Type} (key : α → Int) : List α → List α
  | [] => []
  | a :: l => insertBy key a (sortByKey key l)

/-- The row change made by `UPDATE email_queue SET status = 'sending'`. -/
def sendingUpdate (r : QueueRow) : QueueRow := { r with status := QStatus.sending }

/-- The row change made by the failure branch `UPDATE email_queue SET
status = 'pending', attempts = attempts + 1, last_error = ?2`. -/
def failUpdate (e : String) (r : QueueRow) : QueueRow :=
  { r with
    status := QStatus.pending
    attempts := r.attempts + 1
    last_error := some e }

/-- One `UPDATE email_queue SET status = 'sending' WHERE id = ?1`
(line 833). -/
def markSendingOne (q : List QueueRow) (i : String) : List QueueRow :=
  q.map (fun r => if r.id == i then sendingUpdate r else r)

/-- The `for row in &rows` marking loop of lines 832–837. -/
def markSending (q : List QueueRow) : List String → List QueueRow
  | [] => q
  | i :: rest => markSending (markSendingOne q i) rest

/-- Lines 804–840 of `queue_worker`: `SELECT ... WHERE status =
'pending' ORDER BY created_at LIMIT 10`, then mark each selected row
`sending`; returns the selected snapshot and the updated state. -/
def claim_batch (db : DB) : List QueueRow × DB :=
  let batch := (sortByKey (fun r => r.created_at)
      (db.queue.filter (fun r => r.status == QStatus.pending))).take 10
  (batch, { db with queue := markSending db.queue (batch.map (fun r => r.id)) })

/-- The failure branch of lines 866–873: `status = 'pending'`,
`attempts = attempts + 1`, `last_error = ?2` on the one matching row. -/
def queueFail (q : List QueueRow) (i : String) (e : String) : List QueueRow :=
  q.map (fun r => if r.id == i then failUpdate e r else r)

/-- Lines 842–875, handling of one claimed message: on transport success
insert the archive row (`id` and `sent_at` both `now_millis()`, result
ignored) and then delete the queue row unconditionally; on failure
update the row in place via `queueFail`. -/
def processOne (db : DB) (m : QueueRow) (outcome : SendOutcome)
    (now : Int) : DB :=
  match outcome with
  | SendOutcome.ok =>
    { db with
      archive := archiveInsert db.archive
        ⟨now, m.id, m.from_addr, m.to_addrs, m.subject, m.body, m.html, now⟩,
      queue := db.queue.filter (fun r => r.id != m.id) }
  | SendOutcome.err e => { db with queue := queueFail db.queue m.id e }

/-- The sequential delivery loop over one claimed batch. -/
def processAll : DB → List (QueueRow × SendOutcome × Int) → DB
  | db, [] => db
  | db, (m, outcome, t) :: rest => processAll (processOne db m outcome t) rest

/-- One full poll cycle of `queue_worker` (lines 801–876): claim a
batch, then attempt each message in order.  The transport outcome and
the `now_millis()` value of each attempt are parallel lists. -/
def queue_worker_cycle (db : DB) (outcomes : List SendOutcome)
    (times : List Int) : DB :=
  let p := claim_batch db
  processAll p.2 (p.1.zip (outcomes.zip times))

/-- Lines 879–902 (`archive_culler`), one cycle: when the archive row
count exceeds the ceiling, delete the `count - ceiling` rows with the
smallest ids (`DELETE FROM email_archive WHERE id IN (SELECT id FROM
email_archive ORDER BY id ASC LIMIT ?1)`). -/
def archive_culler_cycle (db : DB) (max_rows : Nat) : DB :=
  let count := db.archive.length
  if count > max_rows then
    let victims := ((sortByKey (fun r => r.id) db.archive).take
        (count - max_rows)).map (fun r => r.id)
    { db with archive := db.archive.filter (fun r => !(victims.contains r.id)) }
  else db

/-- The archive rows surviving one cull deletion of the `n` rows with
the smallest ids (the `DELETE ... WHERE id IN (...)` of the culler,
written as the complementary filter). -/
def cullKeep (ar : List ArchiveRow) (n : Nat) : List ArchiveRow :=
  ar.filter (fun r =>
    !((((sortByKey (fun s : ArchiveRow => s.id) ar).take n).map
        (fun s => s.id)).contains r.id))

/-! Supporting lemmas about the sort used to model `ORDER BY` and about
filtering the queue by id. -/

theorem insertBy_perm {α : Type} (key : α → Int) (a : α) (l : List α) :
    (insertBy key a l).Perm (a :: l) := by
  induction l with
  | nil => simp [insertBy]
  | cons b l ih =>
    simp only [insertBy]
    split
    · exact List.Perm.refl _
    · exact (ih.cons b).trans (List.Perm.swap a b l)

theorem sortByKey_perm {α : Type} (key : α → Int) (l : List α) :
    (sortByKey key l).Perm l := by
  induction l with
  | nil => exact List.Perm.refl _
  | cons a l ih =>
    exact (insertBy_perm key a (sortByKey key l)).trans (ih.cons a)

theorem mem_insertBy {α : Type} {key : α → Int} {a x : α} {l : List α} :
    x ∈ insertBy key a l ↔ x = a ∨ x ∈ l := by
  simpa using (insertBy_perm key a l).mem_iff

theorem mem_sortByKey {α : Type} {key : α → Int} {x : α} {l : List α} :
    x ∈ sortByKey key l ↔ x ∈ l :=
  (sortByKey_perm key l).mem_iff

theorem pairwise_insertBy {α : Type} (key : α → Int) (a : α) (l : List α)
    (h : l.Pairwise (fun x y => key x ≤ key y)) :
    (insertBy key a l).Pairwise (fun x y => key x ≤ key y) := by
  induction l with
  | nil => simp [insertBy]
  | cons b l ih =>
    rcases List.pairwise_cons.mp h with ⟨hb, hl⟩
    simp only [insertBy]
    split
    case isTrue hab =>
      refine List.pairwise_cons.mpr ⟨?_, h⟩
      intro x hx
      rcases List.mem_cons.mp hx with rfl | hx
      · exact hab
      · exact le_trans hab (hb x hx)
    case isFalse hab =>
      refine List.pairwise_cons.mpr ⟨?_, ih hl⟩
      intro x hx
      rcases mem_insertBy.mp hx with rfl | hx
      · exact (not_le.mp hab).le
      · exact hb x hx

theorem sortByKey_pairwise {α : Type} (key : α → Int) (l : List α) :
    (sortByKey key l).Pairwise (fun x y => key x ≤ key y) := by
  induction l with
  | nil => simp [sortByKey]
  | cons a l ih => exact pairwise_insertBy key a _ ih

theorem nodup_map_iff_pairwise {α β : Type} (f : α → β) (l : List α) :
    (l.map f).Nodup ↔ l.Pairwise (fun a b => f a ≠ f b) := by
  induction l with
  | nil => simp
  | cons a l ih =>
    simp only [List.map_cons, List.nodup_cons, List.pairwise_cons, ih,
      List.mem_map, not_exists]
    constructor
    · rintro ⟨h1, h2⟩
      exact ⟨fun b hb hfeq => h1 b ⟨hb, hfeq.symm⟩, h2⟩
    · rintro ⟨h1, h2⟩
      exact ⟨fun b ⟨hb, hfeq⟩ => h1 b hb hfeq.symm, h2⟩

@[simp] theorem failUpdate_id (e : String) (r : QueueRow) :
    (failUpdate e r).id = r.id := rfl

@[simp] theorem sendingUpdate_id (r : QueueRow) :
    (sendingUpdate r).id = r.id := rfl

theorem sendingUpdate_idem (r : QueueRow) :
    sendingUpdate (sendingUpdate r) = sendingUpdate r := rfl

theorem key_injective_of_nodup {α β : Type} (f : α → β) (l : List α)
    (hnd : (l.map f).Nodup) (a b : α) (ha : a ∈ l) (hb : b ∈ l)
    (h : f a = f b) : a = b := by
  induction l with
  | nil => cases ha
  | cons x l ih =>
    simp only [List.map_cons, List.nodup_cons] at hnd
    rcases List.mem_cons.mp ha with ha1 | ha2
    · rcases List.mem_cons.mp hb with hb1 | hb2
      · rw [ha1, hb1]
      · exact absurd
          (show f x ∈ l.map f by
            rw [← ha1, h]
            exact List.mem_map.mpr ⟨b, hb2, rfl⟩)
          hnd.1
    · rcases List.mem_cons.mp hb with hb1 | hb2
      · exact absurd
          (show f x ∈ l.map f by
            rw [← hb1, ← h]
            exact List.mem_map.mpr ⟨a, ha2, rfl⟩)
          hnd.1
      · exact ih hnd.2 ha2 hb2

theorem filter_id_of_ne (q : List QueueRow) (i x : String) (h : i ≠ x) :
    (q.filter (fun r => r.id != i)).filter (fun r => r.id == x) =
      q.filter (fun r => r.id == x) := by
  have hxi : ¬ x = i := fun hh => h hh.symm
  induction q with
  | nil => rfl
  | cons r q ih =>
    by_cases hx : r.id = x
    · simp [List.filter_cons, hx, hxi, ih]
    · by_cases hi : r.id = i
      · simp [List.filter_cons, hx, hi, h, ih]
      · simp [List.filter_cons, hx, hi, ih]

theorem filter_ne_then_eq (q : List QueueRow) (x : String) :
    (q.filter (fun r => r.id != x)).filter (fun r => r.id == x) = [] := by
  induction q with
  | nil => rfl
  | cons r q ih =>
    by_cases hx : r.id = x
    · simp [List.filter_cons, hx, ih]
    · simp [List.filter_cons, hx, ih]

theorem filter_map_id_preserving (q : List QueueRow) (g : QueueRow → QueueRow)
    (hg : ∀ r, (g r).id = r.id) (x : String) :
    (q.map g).filter (fun r => r.id == x) =
      (q.filter (fun r => r.id == x)).map g := by
  induction q with
  | nil => rfl
  | cons r q ih =>
    by_cases hx : r.id = x
    · simp [List.filter_cons, hg, hx, ih]
    · simp [List.filter_cons, hg, hx, ih]

theorem queueFail_update_id (i e : String) (r : QueueRow) :
    ((if r.id == i then failUpdate e r else r).id) = r.id := by
  by_cases hc : (r.id == i) = true
  · simp [hc]
  · simp [hc]

theorem queueFail_filter_other (q : List QueueRow) (i x e : String)
    (h : i ≠ x) :
    (queueFail q i e).filter (fun r => r.id == x) =
      q.filter (fun r => r.id == x) := by
  simp only [queueFail]
  rw [filter_map_id_preserving _ _ (queueFail_update_id i e) x]
  have hpt : ∀ r ∈ q.filter (fun r => r.id == x),
      (if r.id == i then failUpdate e r else r) = r := by
    intro r hr
    have hx : r.id = x := by simpa using (List.mem_filter.mp hr).2
    have hne : (r.id == i) = false := by
      refine beq_eq_false_iff_ne.mpr ?_
      rw [hx]
      exact fun hh => h hh.symm
    simp [hne]
  rw [List.map_congr_left hpt]
  exact List.map_id _

theorem queueFail_filter_self (q : List QueueRow) (x e : String) :
    (queueFail q x e).filter (fun r => r.id == x) =
      (q.filter (fun r => r.id == x)).map (failUpdate e) := by
  simp only [queueFail]
  rw [filter_map_id_preserving _ _ (queueFail_update_id x e) x]
  apply List.map_congr_left
  intro r hr
  have hx : (r.id == x) = true := (List.mem_filter.mp hr).2
  simp [hx]

theorem markSending_update_id (ids : List String) (r : QueueRow) :
    ((if ids.contains r.id then sendingUpdate r else r).id) = r.id := by
  by_cases hc : r.id ∈ ids
  · simp [hc]
  · simp [hc]

theorem markSending_eq (q : List QueueRow) (ids : List String) :
    markSending q ids =
      q.map (fun r => if ids.contains r.id then sendingUpdate r else r) := by
  induction ids generalizing q with
  | nil =>
    simp only [markSending, List.contains, List.elem_nil, Bool.false_eq_true,
      if_false]
    exact (List.map_id _).symm
  | cons i rest ih =>
    simp only [markSending, markSendingOne]
    rw [ih, List.map_map]
    apply List.map_congr_left
    intro r hr
    by_cases hc : r.id = i
    · subst hc
      simp [Function.comp_apply, sendingUpdate_idem]
    · simp [Function.comp_apply, hc]

theorem filter_eq_singleton_of_nodup (q : List QueueRow) (m : QueueRow)
    (hnd : (q.map (fun r => r.id)).Nodup) (hm : m ∈ q) :
    q.filter (fun r => r.id == m.id) = [m] := by
  induction q with
  | nil => cases hm
  | cons r q ih =>
    simp only [List.map_cons, List.nodup_cons] at hnd
    rcases List.mem_cons.mp hm with rfl | hm
    · have hq : q.filter (fun r => r.id == m.id) = [] := by
        rw [List.filter_eq_nil_iff]
        intro a ha
        simp only [beq_iff_eq]
        intro heq
        exact hnd.1 (List.mem_map.mpr ⟨a, ha, heq⟩)
      simp [List.filter_cons, hq]
    · have hne : ¬ r.id = m.id := by
        intro h
        exact hnd.1 (h ▸ List.mem_map.mpr ⟨m, hm, rfl⟩)
      simp [List.filter_cons, hne, ih hnd.2 hm]

theorem claim_batch_mem (db : DB) (m : QueueRow)
    (hm : m ∈ (claim_batch db).1) :
    m ∈ db.queue ∧ m.status = QStatus.pending := by
  simp only [claim_batch] at hm
  have h1 : m ∈ sortByKey (fun r : QueueRow => r.created_at)
      (db.queue.filter (fun r => r.status == QStatus.pending)) :=
    (List.take_sublist _ _).subset hm
  have h2 := List.mem_filter.mp (mem_sortByKey.mp h1)
  exact ⟨h2.1, by simpa using h2.2⟩

theorem claim_batch_nodup (db : DB)
    (hnd : (db.queue.map (fun r => r.id)).Nodup) :
    ((claim_batch db).1.map (fun r => r.id)).Nodup := by
  simp only [claim_batch]
  refine List.Nodup.sublist (List.Sublist.map _ (List.take_sublist _ _)) ?_
  have hperm := (sortByKey_perm (fun r : QueueRow => r.created_at)
      (db.queue.filter (fun r => r.status == QStatus.pending))).map
    (fun r : QueueRow => r.id)
  rw [hperm.nodup_iff]
  exact List.Nodup.sublist (List.Sublist.map _ (List.filter_sublist _)) hnd

theorem claim_batch_queue_filter (db : DB) (m : QueueRow)
    (hnd : (db.queue.map (fun r => r.id)).Nodup)
    (hm : m ∈ db.queue)
    (hid : m.id ∈ (claim_batch db).1.map (fun r => r.id)) :
    (claim_batch db).2.queue.filter (fun r => r.id == m.id) =
      [sendingUpdate m] := by
  have hq : (claim_batch db).2.queue =
      markSending db.queue ((claim_batch db).1.map (fun r => r.id)) := rfl
  rw [hq, markSending_eq,
    filter_map_id_preserving _ _
      (markSending_update_id ((claim_batch db).1.map (fun r => r.id))) m.id,
    filter_eq_singleton_of_nodup db.queue m hnd hm]
  simp only [List.map_cons, List.map_nil]
  rw [if_pos (List.elem_eq_true_of_mem hid)]

theorem zip_getElem?_of {α β : Type} (l1 : List α) (l2 : List β) (i : Nat)
    (a : α) (b : β) (h1 : l1[i]? = some a) (h2 : l2[i]? = some b) :
    (l1.zip l2)[i]? = some (a, b) := by
  induction l1 generalizing l2 i with
  | nil => simp at h1
  | cons x l1 ih =>
    cases l2 with
    | nil => simp at h2
    | cons y l2 =>
      cases i with
      | zero =>
        simp only [List.getElem?_cons_zero, Option.some.injEq] at h1 h2
        simp [List.zip_cons_cons, h1, h2]
      | succ i =>
        simp only [List.getElem?_cons_succ] at h1 h2
        simpa [List.zip_cons_cons] using ih l2 i h1 h2

theorem processOne_queue_other (db : DB) (m : QueueRow) (o : SendOutcome)
    (t : Int) (x : String) (h : m.id ≠ x) :
    (processOne db m o t).queue.filter (fun r => r.id == x) =
      db.queue.filter (fun r => r.id == x) := by
  cases o with
  | ok =>
    simp only [processOne]
    exact filter_id_of_ne db.queue m.id x h
  | err e =>
    simp only [processOne]
    exact queueFail_filter_other db.queue m.id x e h

theorem processAll_queue_other (l : List (QueueRow × SendOutcome × Int))
    (db : DB) (x : String) (h : ∀ en ∈ l, en.1.id ≠ x) :
    (processAll db l).queue.filter (fun r => r.id == x) =
      db.queue.filter (fun r => r.id == x) := by
  induction l generalizing db with
  | nil => rfl
  | cons a l ih =>
    obtain ⟨m, o, t⟩ := a
    simp only [processAll]
    rw [ih _ (fun en hen => h en (List.mem_cons_of_mem _ hen))]
    exact processOne_queue_other db m o t x (h _ (List.mem_cons_self _ _))

theorem processAll_queue_err (l : List (QueueRow × SendOutcome × Int))
    (db : DB) (i : Nat) (m : QueueRow) (e : String) (t : Int)
    (hget : l[i]? = some (m, SendOutcome.err e, t))
    (hnd : (l.map (fun en => en.1.id)).Nodup) :
    (processAll db l).queue.filter (fun r => r.id == m.id) =
      (db.queue.filter (fun r => r.id == m.id)).map (failUpdate e) := by
  induction l generalizing db i with
  | nil => simp at hget
  | cons a l ih =>
    simp only [List.map_cons, List.nodup_cons] at hnd
    cases i with
    | zero =>
      simp only [List.getElem?_cons_zero, Option.some.injEq] at hget
      subst hget
      simp only [processAll]
      rw [processAll_queue_other l _ _ ?hne]
      case hne =>
        intro en hen hid
        exact hnd.1 (hid ▸ List.mem_map.mpr ⟨en, hen, rfl⟩)
      simp only [processOne]
      exact queueFail_filter_self db.queue m.id e
    | succ i =>
      obtain ⟨m2, o2, t2⟩ := a
      simp only [List.getElem?_cons_succ] at hget
      have hmem : (m, SendOutcome.err e, t) ∈ l := List.getElem?_mem hget
      have hne : m2.id ≠ m.id := by
        intro hh
        exact hnd.1 (hh ▸ List.mem_map.mpr ⟨_, hmem, rfl⟩)
      simp only [processAll]
      rw [ih _ i hget hnd.2]
      rw [processOne_queue_other db m2 o2 t2 m.id hne]

theorem processAll_queue_ok (l : List (QueueRow × SendOutcome × Int))
    (db : DB) (i : Nat) (m : QueueRow) (t : Int)
    (hget : l[i]? = some (m, SendOutcome.ok, t))
    (hnd : (l.map (fun en => en.1.id)).Nodup) :
    (processAll db l).queue.filter (fun r => r.id == m.id) = [] := by
  induction l generalizing db i with
  | nil => simp at hget
  | cons a l ih =>
    simp only [List.map_cons, List.nodup_cons] at hnd
    cases i with
    | zero =>
      simp only [List.getElem?_cons_zero, Option.some.injEq] at hget
      subst hget
      simp only [processAll]
      rw [processAll_queue_other l _ _ ?hne]
      case hne =>
        intro en hen hid
        exact hnd.1 (hid ▸ List.mem_map.mpr ⟨en, hen, rfl⟩)
      simp only [processOne]
      exact filter_ne_then_eq db.queue m.id
    | succ i =>
      obtain ⟨m2, o2, t2⟩ := a
      simp only [List.getElem?_cons_succ] at hget
      have hmem : (m, SendOutcome.ok, t) ∈ l := List.getElem?_mem hget
      have hne : m2.id ≠ m.id := by
        intro hh
        exact hnd.1 (hh ▸ List.mem_map.mpr ⟨_, hmem, rfl⟩)
      simp only [processAll]
      exact ih _ i hget hnd.2

theorem seedOne_of_present (db : DB) (d : List Char) (t : String) (now : Int)
    (h : db.domains.any (fun r => r.domain == d) = true) :
    seedOne db d t now = db := by
  simp only [seedOne]
  rw [if_pos h]

theorem seedOne_of_absent (db : DB) (d : List Char) (t : String) (now : Int)
    (h1 : db.domains.any (fun r => r.domain == d) = false)
    (h2 : db.domains.any (fun r => r.token == t) = false) :
    seedOne db d t now = { db with domains := db.domains ++ [⟨d, t, now⟩] } := by
  simp only [seedOne]
  rw [if_neg (by simp [h1]), if_neg (by simp [h2])]

/-! Claim theorems. -/

/-- C6 counterexample: seeding the single domain `"Example.COM"` into an
empty database inserts the row verbatim, while `register`
(`create_domain_handler`) on the same input inserts the lowercased
`"example.com"` — seeding does not perform the same normalization steps
as register. -/
theorem seed_not_register_counterexample :
    (seed_domains ⟨[], [], [], []⟩
        [(String.toList "Example.COM", "t1")] 0).domains =
      [⟨String.toList "Example.COM", "t1", 0⟩] ∧
    create_domain_handler ⟨[], [], [], []⟩ (String.toList "Example.COM")
        "t1" 0 =
      (RegisterResult.created (String.toList "example.com") "t1",
       ⟨[], [], [⟨String.toList "example.com", "t1", 0⟩], []⟩) ∧
    String.toList "Example.COM" ≠ String.toList "example.com" := by
  refine ⟨by decide, by decide, by decide⟩

/-- C6 amended: `seed(domains)` is idempotent and never errors the
caller, but inserts each absent domain verbatim, without register's
trim/lowercase normalization or empty/no-dot validation: a domain
already present by exact string match is skipped, an absent one is
appended unchanged with its fresh token, and seeding the same domain
twice yields exactly one matching row. -/
theorem seed_idempotent_amended (db : DB) (d : List Char) (t t2 : String)
    (now now2 : Int) :
    ((∃ r ∈ db.domains, r.domain = d) → seedOne db d t now = db) ∧
    ((∀ r ∈ db.domains, r.domain ≠ d) → (∀ r ∈ db.domains, r.token ≠ t) →
      (seedOne db d t now).domains = db.domains ++ [⟨d, t, now⟩]) ∧
    ((∀ r ∈ db.domains, r.domain ≠ d) → (∀ r ∈ db.domains, r.token ≠ t) →
      ((seed_domains (seed_domains db [(d, t)] now)
          [(d, t2)] now2).domains.countP (fun r => r.domain == d)) = 1) := by
  have habsent : (∀ r ∈ db.domains, r.domain ≠ d) →
      db.domains.any (fun r => r.domain == d) = false := by
    intro h
    rw [List.any_eq_false]
    intro r hr
    simp [h r hr]
  have htfresh : (∀ r ∈ db.domains, r.token ≠ t) →
      db.domains.any (fun r => r.token == t) = false := by
    intro h
    rw [List.any_eq_false]
    intro r hr
    simp [h r hr]
  refine ⟨?_, ?_, ?_⟩
  · rintro ⟨r, hr, hd⟩
    exact seedOne_of_present db d t now
      (List.any_eq_true.mpr ⟨r, hr, beq_iff_eq.mpr hd⟩)
  · intro h1 h2
    rw [seedOne_of_absent db d t now (habsent h1) (htfresh h2)]
  · intro h1 h2
    have hstep1 : seed_domains db [(d, t)] now = seedOne db d t now := rfl
    have hdom1 : (seedOne db d t now).domains = db.domains ++ [⟨d, t, now⟩] := by
      rw [seedOne_of_absent db d t now (habsent h1) (htfresh h2)]
    have hpresent : (seedOne db d t now).domains.any
        (fun r => r.domain == d) = true := by
      rw [hdom1]
      exact List.any_eq_true.mpr
        ⟨⟨d, t, now⟩, List.mem_append_right _ (List.mem_cons_self _ _), by simp⟩
    have hstep2 : seed_domains (seedOne db d t now) [(d, t2)] now2 =
        seedOne (seedOne db d t now) d t2 now2 := rfl
    have hskip : seedOne (seedOne db d t now) d t2 now2 =
        seedOne db d t now :=
      seedOne_of_present _ d t2 now2 hpresent
    rw [hstep1, hstep2, hskip, hdom1, List.countP_append]
    have hzero : db.domains.countP (fun r => r.domain == d) = 0 := by
      rw [List.countP_eq_zero]
      intro r hr
      simp [h1 r hr]
    rw [hzero]
    simp

/-- C6 amended witness: seeding `a.com` twice into an empty database
leaves exactly one matching row. -/
theorem seed_idempotent_amended_witness :
    ((seed_domains (seed_domains ⟨[], [], [], []⟩
        [(String.toList "a.com", "t1")] 0)
        [(String.toList "a.com", "t2")] 1).domains.countP
      (fun r => r.domain == String.toList "a.com")) = 1 :=
  (seed_idempotent_amended ⟨[], [], [], []⟩ (String.toList "a.com")
      "t1" "t2" 0 1).2.2 (by decide) (by decide)

/-- C7: `register(domain)` first trims and lowercases the input; it
fails with ValidationError exactly when the normalized domain is empty
or contains no dot, fails with ConflictError when the normalized domain
already exists (leaving the table, hence the original row and token,
unchanged), and otherwise persists a row with the fresh token and
returns the normalized domain together with that token.  Freshness of
the generated UUID token is a hypothesis. -/
theorem register_spec (db : DB) (payload : List Char) (token : String)
    (now : Int) (hfresh : ∀ r ∈ db.domains, r.token ≠ token) :
    (((lowercaseList (trimList payload)).isEmpty ||
        !((lowercaseList (trimList payload)).contains '.')) = true →
      create_domain_handler db payload token now =
        (RegisterResult.validationError, db)) ∧
    (((lowercaseList (trimList payload)).isEmpty ||
        !((lowercaseList (trimList payload)).contains '.')) = false →
      (∃ r ∈ db.domains, r.domain = lowercaseList (trimList payload)) →
      create_domain_handler db payload token now =
        (RegisterResult.conflictError, db)) ∧
    (((lowercaseList (trimList payload)).isEmpty ||
        !((lowercaseList (trimList payload)).contains '.')) = false →
      (∀ r ∈ db.domains, r.domain ≠ lowercaseList (trimList payload)) →
      create_domain_handler db payload token now =
        (RegisterResult.created (lowercaseList (trimList payload)) token,
         { db with domains := db.domains ++
             [⟨lowercaseList (trimList payload), token, now⟩] })) := by
  refine ⟨?_, ?_, ?_⟩
  · intro h1
    simp only [create_domain_handler]
    rw [if_pos h1]
  · intro h1 h2
    obtain ⟨r, hr, hd⟩ := h2
    have ha : db.domains.any
        (fun r => r.domain == lowercaseList (trimList payload)) = true :=
      List.any_eq_true.mpr ⟨r, hr, beq_iff_eq.mpr hd⟩
    simp only [create_domain_handler]
    rw [if_neg (by rw [h1]; exact Bool.false_ne_true),
      if_pos (by rw [ha]; rfl)]
  · intro h1 h2
    have ha : db.domains.any
        (fun r => r.domain == lowercaseList (trimList payload)) = false := by
      rw [List.any_eq_false]
      intro r hr
      simp [h2 r hr]
    have hb : db.domains.any (fun r => r.token == token) = false := by
      rw [List.any_eq_false]
      intro r hr
      simp [hfresh r hr]
    simp only [create_domain_handler]
    rw [if_neg (by rw [h1]; exact Bool.false_ne_true),
      if_neg (by rw [ha, hb]; exact Bool.false_ne_true)]

/-- C7 witness: registering `" Example.COM "` into an empty database
normalizes to `example.com` and persists it with the fresh token. -/
theorem register_spec_witness :
    create_domain_handler ⟨[], [], [], []⟩ (String.toList " Example.COM ")
        "t1" 5 =
      (RegisterResult.created (String.toList "example.com") "t1",
       ⟨[], [], [⟨String.toList "example.com", "t1", 5⟩], []⟩) :=
  (register_spec ⟨[], [], [], []⟩ (String.toList " Example.COM ") "t1" 5
      (by decide)).2.2 (by decide) (by decide)

/-- C8 counterexample: with the archive already holding a row with id 5,
a successful synchronous save whose `now_millis()` is 5 reports success
yet inserts nothing — the insertion of a new archive row does not always
succeed with an id greater than all existing ids. -/
theorem archive_id_collision_counterexample :
    (email_handler
        ⟨[], [⟨5, "q0", String.toList "x@y.z", [], "s", "b", none, 5⟩],
         [⟨String.toList "example.com", "tok", 0⟩], []⟩
        (some "tok") true true (String.toList "a@example.com") ["b@x.com"]
        "s" "b" none SendOutcome.ok "fresh" 5).1 =
      SubmitResult.okSent "fresh" ∧
    (email_handler
        ⟨[], [⟨5, "q0", String.toList "x@y.z", [], "s", "b", none, 5⟩],
         [⟨String.toList "example.com", "tok", 0⟩], []⟩
        (some "tok") true true (String.toList "a@example.com") ["b@x.com"]
        "s" "b" none SendOutcome.ok "fresh" 5).2.archive =
      [⟨5, "q0", String.toList "x@y.z", [], "s", "b", none, 5⟩] := by
  refine ⟨by decide, by decide⟩

/-- C8 amended: each successful delivery writes its archive row through
an insert keyed by the wall clock (`id = now_millis()`) whose result is
ignored: when the timestamp is strictly greater than every existing
archive id, the insert succeeds and appends a row whose id strictly
exceeds all prior ids (so with a strictly increasing clock, ordering by
id is chronological); a delivery whose timestamp equals an existing id
writes no archive row at all. -/
theorem archive_ids_amended (db : DB) (m : QueueRow) (now : Int) :
    ((∀ r ∈ db.archive, r.id < now) →
      (processOne db m SendOutcome.ok now).archive =
        db.archive ++
          [⟨now, m.id, m.from_addr, m.to_addrs, m.subject, m.body, m.html,
            now⟩]) ∧
    ((∃ r ∈ db.archive, r.id = now) →
      (processOne db m SendOutcome.ok now).archive = db.archive) := by
  constructor
  · intro h
    have ha : db.archive.any (fun r => r.id == now) = false := by
      rw [List.any_eq_false]
      intro r hr
      simp [Int.ne_of_lt (h r hr)]
    simp only [processOne, archiveInsert]
    rw [if_neg (by simp [ha])]
  · rintro ⟨r, hr, hid⟩
    have ha : db.archive.any (fun r => r.id == now) = true :=
      List.any_eq_true.mpr ⟨r, hr, beq_iff_eq.mpr hid⟩
    simp only [processOne, archiveInsert]
    rw [if_pos ha]

/-- C8 amended witness: delivering into an empty archive at time 7
appends the archive row with id 7. -/
theorem archive_ids_amended_witness :
    (processOne ⟨[], [], [], []⟩
        ⟨"q1", QStatus.pending, String.toList "a@b.c", [], "s", "b", none,
         0, 0, none⟩
        SendOutcome.ok 7).archive =
      [⟨7, "q1", String.toList "a@b.c", [], "s", "b", none, 7⟩] :=
  (archive_ids_amended ⟨[], [], [], []⟩
      ⟨"q1", QStatus.pending, String.toList "a@b.c", [], "s", "b", none,
       0, 0, none⟩ 7).1 (by decide)

/-- C9 counterexample: startup initialization with environment user
`"u"`, no environment pass and an empty config table yields a credential
cell with a non-empty user and an empty pass, violating the
both-empty-or-both-set invariant. -/
theorem smtp_init_counterexample :
    (init_smtp_creds "u" "" []).user ≠ "" ∧
    (init_smtp_creds "u" "" []).pass = "" := by
  refine ⟨by decide, by decide⟩

/-- C9 amended: `setTransportCredentials` rejects with ValidationError
any request in which either field is empty (leaving the database and
the cell unchanged) and otherwise installs exactly the two given
non-empty values — so it preserves (indeed establishes) the
both-empty-or-both-non-empty invariant; startup initialization,
however, combines the environment values and the two persisted
overrides field-by-field and does not guarantee the invariant. -/
theorem smtp_creds_amended (db : DB) (creds : SmtpCredentials)
    (user pass : String) :
    ((user = "" ∨ pass = "") →
      set_smtp_handler db creds user pass =
        (SetSmtpResult.validationError, db, creds)) ∧
    (user ≠ "" → pass ≠ "" →
      (set_smtp_handler db creds user pass).2.2 = ⟨user, pass⟩ ∧
      (set_smtp_handler db creds user pass).1 = SetSmtpResult.ok ∧
      (set_smtp_handler db creds user pass).2.2.user ≠ "" ∧
      (set_smtp_handler db creds user pass).2.2.pass ≠ "") ∧
    ((creds.user = "" ↔ creds.pass = "") →
      ((set_smtp_handler db creds user pass).2.2.user = "" ↔
        (set_smtp_handler db creds user pass).2.2.pass = "")) := by
  by_cases hu : user = ""
  · have hcond : (user == "" || pass == "") = true := by simp [hu]
    have heq : set_smtp_handler db creds user pass =
        (SetSmtpResult.validationError, db, creds) := by
      simp only [set_smtp_handler]
      rw [if_pos hcond]
    refine ⟨fun _ => heq, fun h1 _ => absurd hu h1, fun hinv => ?_⟩
    rw [heq]
    exact hinv
  · by_cases hp : pass = ""
    · have hcond : (user == "" || pass == "") = true := by simp [hp]
      have heq : set_smtp_handler db creds user pass =
          (SetSmtpResult.validationError, db, creds) := by
        simp only [set_smtp_handler]
        rw [if_pos hcond]
      refine ⟨fun _ => heq, fun _ h2 => absurd hp h2, fun hinv => ?_⟩
      rw [heq]
      exact hinv
    · have hcond : (user == "" || pass == "") = false := by simp [hu, hp]
      have heq : set_smtp_handler db creds user pass =
          (SetSmtpResult.ok,
           { db with
             config := configSet (configSet db.config "smtp_user" user)
                         "smtp_pass" pass },
           ⟨user, pass⟩) := by
        simp only [set_smtp_handler]
        rw [if_neg (by rw [hcond]; exact Bool.false_ne_true)]
      refine ⟨?_, fun _ _ => ?_, fun _ => ?_⟩
      · rintro (h | h)
        · exact absurd h hu
        · exact absurd h hp
      · rw [heq]
        exact ⟨rfl, rfl, hu, hp⟩
      · rw [heq]
        exact ⟨fun h => absurd h hu, fun h => absurd h hp⟩

/-- C9 amended witness: an empty user field is rejected and leaves the
state unchanged. -/
theorem smtp_creds_amended_witness :
    set_smtp_handler ⟨[], [], [], []⟩ ⟨"", ""⟩ "" "p" =
      (SetSmtpResult.validationError, ⟨[], [], [], []⟩, ⟨"", ""⟩) :=
  (smtp_creds_amended ⟨[], [], [], []⟩ ⟨"", ""⟩ "" "p").1 (Or.inl rfl)

/-- C2: with queue row `q1` pending and the archive already containing a
row whose id equals the delivery timestamp 7, one worker cycle whose
transport call succeeds still deletes the queue row although the
(ignored) archive insert failed: afterwards the queue is empty and no
archive row for `q1` exists — the message is lost, contradicting the
requirement that the row be deleted only after the archive write has
succeeded. -/
theorem success_path_lost_message :
    (queue_worker_cycle
        ⟨[⟨"q1", QStatus.pending, String.toList "a@b.com", ["c@d.com"], "hi",
           "hello", none, 5, 0, none⟩],
         [⟨7, "other", String.toList "x@y.z", [], "s", "b", none, 7⟩],
         [], []⟩
        [SendOutcome.ok] [7]).queue = [] ∧
    (queue_worker_cycle
        ⟨[⟨"q1", QStatus.pending, String.toList "a@b.com", ["c@d.com"], "hi",
           "hello", none, 5, 0, none⟩],
         [⟨7, "other", String.toList "x@y.z", [], "s", "b", none, 7⟩],
         [], []⟩
        [SendOutcome.ok] [7]).archive.filter
      (fun r => r.queue_id == "q1") = [] := by
  refine ⟨by decide, by decide⟩

theorem findIdx_none_of_not_mem (c : Char) (l : List Char) (h : c ∉ l) :
    l.findIdx? (fun x => x == c) = none := by
  rw [List.findIdx?_eq_none_iff]
  intro x hx
  refine beq_eq_false_iff_ne.mpr ?_
  intro hh
  exact h (hh ▸ hx)

theorem splitOnChar_nil (sep : Char) : splitOnChar sep [] = [[]] := rfl

theorem splitOnChar_cons (sep c : Char) (cs : List Char) :
    splitOnChar sep (c :: cs) =
      match splitOnChar sep cs with
      | [] => if c == sep then [[], []] else [[c]]
      | p :: ps => if c == sep then [] :: p :: ps else (c :: p) :: ps := rfl

theorem splitOnChar_append_sep (sep : Char) (u : List Char) (h : sep ∉ u) :
    splitOnChar sep (u ++ [sep]) = [u, []] := by
  induction u with
  | nil =>
    rw [List.nil_append, splitOnChar_cons, splitOnChar_nil]
    simp
  | cons c u ih =>
    have hc : (c == sep) = false := by
      refine beq_eq_false_iff_ne.mpr ?_
      intro hh
      exact h (hh ▸ List.mem_cons_self c u)
    have ih2 := ih (fun hm => h (List.mem_cons_of_mem c hm))
    rw [List.cons_append, splitOnChar_cons, ih2]
    simp [hc]

theorem extract_trailing_at (u : List Char) (hat : '@' ∉ u)
    (hlt : '<' ∉ u) :
    extract_domain_from_addr (u ++ ['@']) = some [] := by
  have hfind : (u ++ ['@']).findIdx? (fun c => c == '<') = none := by
    refine findIdx_none_of_not_mem _ _ ?_
    intro hm
    rcases List.mem_append.mp hm with hm | hm
    · exact hlt hm
    · simp at hm
  simp only [extract_domain_from_addr, extract_addr_part, hfind,
    splitOnChar_append_sep '@' u hat]
  rfl

/-- C10: a `from` value of the shape `local ++ "@"` — an `@` with
nothing after it, as in `user@` — makes `extract_domain_from_addr`
return `some ""` rather than `none`; consequently a submission with
such a `from` passes the invalid-from-address check and, for a token
authorizing a non-empty domain, fails with ForbiddenError (the empty
domain never equals it) instead of the 400 ValidationError, with the
state unchanged. -/
theorem empty_domain_forbidden (db : DB) (tok : String) (dr : DomainRow)
    (u : List Char) (sync save : Bool) (to_addrs : List String)
    (subject body : String) (html : Option String) (sr : SendOutcome)
    (fid : String) (now : Int)
    (hlook : db.domains.find? (fun r => r.token == tok) = some dr)
    (hdom : dr.domain ≠ [])
    (hat : '@' ∉ u) (hlt : '<' ∉ u) :
    extract_domain_from_addr (u ++ ['@']) = some [] ∧
    email_handler db (some tok) sync save (u ++ ['@']) to_addrs subject body
        html sr fid now =
      (SubmitResult.forbidden dr.domain [], db) := by
  have hex := extract_trailing_at u hat hlt
  refine ⟨hex, ?_⟩
  have hbne : (([] : List Char) != dr.domain) = true := by
    simp only [bne_iff_ne, ne_eq]
    exact fun hh => hdom hh.symm
  simp only [email_handler, hlook, hex]
  rw [if_pos hbne]

/-- C10 witness: `user@` against a token for `example.com` yields
ForbiddenError, not the invalid-from ValidationError. -/
theorem empty_domain_forbidden_witness :
    email_handler ⟨[], [], [⟨String.toList "example.com", "tok", 0⟩], []⟩
        (some "tok") false true (String.toList "user" ++ ['@']) ["b@x.com"]
        "s" "b" none SendOutcome.ok "fresh" 5 =
      (SubmitResult.forbidden (String.toList "example.com") [],
       ⟨[], [], [⟨String.toList "example.com", "tok", 0⟩], []⟩) :=
  (empty_domain_forbidden ⟨[], [], [⟨String.toList "example.com", "tok", 0⟩], []⟩
      "tok" ⟨String.toList "example.com", "tok", 0⟩ (String.toList "user")
      false true ["b@x.com"] "s" "b" none SendOutcome.ok "fresh" 5
      (by decide) (by decide) (by decide) (by decide)).2

/-- C1: for the registered domain held by the token's row, a submission
succeeds only if the extracted from-domain equals that domain — in
particular equals it case-insensitively — and any case-insensitive
mismatch yields ForbiddenError with the database, queue and archive
included, unchanged. -/
theorem token_scoping_submit (db : DB) (tok : String) (dr : DomainRow)
    (sync save : Bool) (from_addr : List Char) (to_addrs : List String)
    (subject body : String) (html : Option String) (sr : SendOutcome)
    (fid : String) (now : Int)
    (hlook : db.domains.find? (fun r => r.token == tok) = some dr) :
    ((email_handler db (some tok) sync save from_addr to_addrs subject body
        html sr fid now).1.isSuccess = true →
      ∃ fd, extract_domain_from_addr from_addr = some fd ∧
        lowercaseList fd = lowercaseList dr.domain) ∧
    (∀ fd, extract_domain_from_addr from_addr = some fd →
      lowercaseList fd ≠ lowercaseList dr.domain →
      email_handler db (some tok) sync save from_addr to_addrs subject body
          html sr fid now =
        (SubmitResult.forbidden dr.domain fd, db)) := by
  constructor
  · intro hsucc
    cases hex : extract_domain_from_addr from_addr with
    | none =>
      have heq : email_handler db (some tok) sync save from_addr to_addrs
          subject body html sr fid now = (SubmitResult.badFrom, db) := by
        simp only [email_handler, hlook, hex]
      rw [heq] at hsucc
      simp [SubmitResult.isSuccess] at hsucc
    | some fd =>
      by_cases hfd : fd = dr.domain
      · exact ⟨fd, rfl, congrArg lowercaseList hfd⟩
      · have hb : (fd != dr.domain) = true := by
          simp only [bne_iff_ne, ne_eq]
          exact hfd
        have heq : email_handler db (some tok) sync save from_addr to_addrs
            subject body html sr fid now =
            (SubmitResult.forbidden dr.domain fd, db) := by
          simp only [email_handler, hlook, hex]
          rw [if_pos hb]
        rw [heq] at hsucc
        simp [SubmitResult.isSuccess] at hsucc
  · intro fd hex hne
    have hfd : (fd != dr.domain) = true := by
      simp only [bne_iff_ne, ne_eq]
      exact fun hh => hne (congrArg lowercaseList hh)
    simp only [email_handler, hlook, hex]
    rw [if_pos hfd]

/-- C1 witness: a token for `example.com` with a `from` at `other.com`
is rejected with ForbiddenError and the state is unchanged. -/
theorem token_scoping_submit_witness :
    email_handler ⟨[], [], [⟨String.toList "example.com", "tok", 0⟩], []⟩
        (some "tok") false true (String.toList "a@other.com") ["b@x.com"]
        "s" "b" none SendOutcome.ok "fresh" 5 =
      (SubmitResult.forbidden (String.toList "example.com")
        (String.toList "other.com"),
       ⟨[], [], [⟨String.toList "example.com", "tok", 0⟩], []⟩) :=
  (token_scoping_submit ⟨[], [], [⟨String.toList "example.com", "tok", 0⟩], []⟩
      "tok" ⟨String.toList "example.com", "tok", 0⟩ false true
      (String.toList "a@other.com") ["b@x.com"] "s" "b" none SendOutcome.ok
      "fresh" 5 (by decide)).2 (String.toList "other.com") (by decide)
    (by decide)

/-- C4: one claim cycle selects at most 10 rows, each of which was a
pending row of the pre-state, in ascending created_at order; in the
post-state every selected id carries status sending, and a subsequent
claim on the post-state re-selects none of the selected ids. -/
theorem claim_batch_spec (db : DB) :
    (claim_batch db).1.length ≤ 10 ∧
    (claim_batch db).1.Pairwise (fun a b => a.created_at ≤ b.created_at) ∧
    (∀ m ∈ (claim_batch db).1, m ∈ db.queue ∧ m.status = QStatus.pending) ∧
    (∀ r ∈ (claim_batch db).2.queue,
      r.id ∈ (claim_batch db).1.map (fun x => x.id) →
      r.status = QStatus.sending) ∧
    (∀ m2 ∈ (claim_batch (claim_batch db).2).1,
      m2.id ∉ (claim_batch db).1.map (fun x => x.id)) := by
  have h4 : ∀ r ∈ (claim_batch db).2.queue,
      r.id ∈ (claim_batch db).1.map (fun x => x.id) →
      r.status = QStatus.sending := by
    intro r hr hid
    have hq : (claim_batch db).2.queue =
        markSending db.queue ((claim_batch db).1.map (fun x => x.id)) := rfl
    rw [hq, markSending_eq] at hr
    obtain ⟨s, hs, rfl⟩ := List.mem_map.mp hr
    rw [markSending_update_id] at hid
    rw [if_pos (List.elem_eq_true_of_mem hid)]
    rfl
  refine ⟨?_, ?_, fun m hm => claim_batch_mem db m hm, h4, ?_⟩
  · simp only [claim_batch]
    exact List.length_take_le 10 _
  · exact List.Pairwise.sublist (List.take_sublist _ _)
      (sortByKey_pairwise (fun r : QueueRow => r.created_at) _)
  · intro m2 hm2 hin
    have hp := claim_batch_mem (claim_batch db).2 m2 hm2
    exact QStatus.noConfusion (hp.2.symm.trans (h4 m2 hp.1 hin))

/-- C3: in one worker cycle over a claimed batch, every message whose
transport attempt fails is afterwards the unique queue row with its id
and carries status pending, attempts incremented by exactly one, and
last_error equal to the transport error text — it is never deleted —
while, independently of any other message's outcome, every message
whose attempt succeeds has its row deleted; so a failure neither
removes its own row nor stops the rest of the batch from being
processed. -/
theorem retry_accounting (db : DB) (outcomes : List SendOutcome)
    (times : List Int)
    (hnd : (db.queue.map (fun r => r.id)).Nodup)
    (hlo : (claim_batch db).1.length ≤ outcomes.length)
    (hlt : (claim_batch db).1.length ≤ times.length) :
    (∀ (i : Nat) (m : QueueRow) (e : String),
      (claim_batch db).1[i]? = some m →
      outcomes[i]? = some (SendOutcome.err e) →
      (queue_worker_cycle db outcomes times).queue.filter
          (fun r => r.id == m.id) =
        [{ m with
           status := QStatus.pending
           attempts := m.attempts + 1
           last_error := some e }]) ∧
    (∀ (i : Nat) (m : QueueRow),
      (claim_batch db).1[i]? = some m →
      outcomes[i]? = some SendOutcome.ok →
      (queue_worker_cycle db outcomes times).queue.filter
          (fun r => r.id == m.id) = []) := by
  have hbn : (((claim_batch db).1).map (fun r => r.id)).Nodup :=
    claim_batch_nodup db hnd
  have hlen : (claim_batch db).1.length ≤ (outcomes.zip times).length := by
    rw [List.length_zip]
    exact Nat.le_min.mpr ⟨hlo, hlt⟩
  have hmap : (((claim_batch db).1.zip (outcomes.zip times)).map
      (fun en => en.1.id)) = ((claim_batch db).1).map (fun r => r.id) := by
    have h1 : ((claim_batch db).1.zip (outcomes.zip times)).map Prod.fst =
        (claim_batch db).1 := List.map_fst_zip _ _ hlen
    calc ((claim_batch db).1.zip (outcomes.zip times)).map (fun en => en.1.id)
        = (((claim_batch db).1.zip (outcomes.zip times)).map Prod.fst).map
            (fun r => r.id) := by rw [List.map_map]; rfl
      _ = ((claim_batch db).1).map (fun r => r.id) := by rw [h1]
  have hznd : ((((claim_batch db).1).zip (outcomes.zip times)).map
      (fun en => en.1.id)).Nodup := by
    rw [hmap]
    exact hbn
  have hqw : ∀ oc tm, queue_worker_cycle db oc tm =
      processAll (claim_batch db).2 ((claim_batch db).1.zip (oc.zip tm)) :=
    fun _ _ => rfl
  constructor
  · intro i m e hgm hgo
    obtain ⟨hib, -⟩ := List.getElem?_eq_some.mp hgm
    have hmem : m ∈ (claim_batch db).1 := List.getElem?_mem hgm
    have hmdb : m ∈ db.queue := (claim_batch_mem db m hmem).1
    have hit : i < times.length := lt_of_lt_of_le hib hlt
    have hgt : times[i]? = some times[i] := List.getElem?_eq_getElem hit
    have hzip : ((claim_batch db).1.zip (outcomes.zip times))[i]? =
        some (m, SendOutcome.err e, times[i]) :=
      zip_getElem?_of _ _ i _ _ hgm (zip_getElem?_of _ _ i _ _ hgo hgt)
    rw [hqw outcomes times,
      processAll_queue_err _ (claim_batch db).2 i m e _ hzip hznd,
      claim_batch_queue_filter db m hnd hmdb
        (List.mem_map.mpr ⟨m, hmem, rfl⟩)]
    rfl
  · intro i m hgm hgo
    obtain ⟨hib, -⟩ := List.getElem?_eq_some.mp hgm
    have hit : i < times.length := lt_of_lt_of_le hib hlt
    have hgt : times[i]? = some times[i] := List.getElem?_eq_getElem hit
    have hzip : ((claim_batch db).1.zip (outcomes.zip times))[i]? =
        some (m, SendOutcome.ok, times[i]) :=
      zip_getElem?_of _ _ i _ _ hgm (zip_getElem?_of _ _ i _ _ hgo hgt)
    rw [hqw outcomes times]
    exact processAll_queue_ok _ (claim_batch db).2 i m _ hzip hznd

/-- C3 witness: a batch of one message failing with `boom` leaves the
row pending with attempts 1 and last_error `boom`. -/
theorem retry_accounting_witness :
    (queue_worker_cycle
        ⟨[⟨"q1", QStatus.pending, String.toList "a@b.com", ["c@d.com"], "hi",
           "hello", none, 5, 0, none⟩], [], [], []⟩
        [SendOutcome.err "boom"] [9]).queue.filter
      (fun r => r.id == "q1") =
      [⟨"q1", QStatus.pending, String.toList "a@b.com", ["c@d.com"], "hi",
        "hello", none, 5, 1, some "boom"⟩] :=
  (retry_accounting
      ⟨[⟨"q1", QStatus.pending, String.toList "a@b.com", ["c@d.com"], "hi",
         "hello", none, 5, 0, none⟩], [], [], []⟩
      [SendOutcome.err "boom"] [9] (by decide) (by decide) (by decide)).1
    0 ⟨"q1", QStatus.pending, String.toList "a@b.com", ["c@d.com"], "hi",
       "hello", none, 5, 0, none⟩ "boom" (by decide) (by decide)

theorem not_contains_iff (x : Int) (ids : List Int) :
    ((!(ids.contains x)) = true ↔ x ∉ ids) := by
  constructor
  · intro hb hmem
    have hc : ids.contains x = true := List.elem_eq_true_of_mem hmem
    rw [hc] at hb
    simp at hb
  · intro hmem
    cases hcb : ids.contains x with
    | false => rfl
    | true => exact absurd (List.elem_iff.mp hcb) hmem

theorem cullKeep_spec (ar : List ArchiveRow) (n : Nat)
    (hnd : (ar.map (fun r => r.id)).Nodup) :
    (cullKeep ar n).length = ar.length - n ∧
    (∀ r ∈ cullKeep ar n, r ∈ ar) ∧
    (∀ r ∈ cullKeep ar n, ∀ s ∈ ar, s ∉ cullKeep ar n → s.id < r.id) := by
  have hperm := sortByKey_perm (fun r : ArchiveRow => r.id) ar
  have hndS : ((sortByKey (fun r : ArchiveRow => r.id) ar).map
      (fun r => r.id)).Nodup :=
    ((hperm.map (fun r : ArchiveRow => r.id)).nodup_iff).mpr hnd
  have hpw := sortByKey_pairwise (fun r : ArchiveRow => r.id) ar
  have hne := (nodup_map_iff_pairwise (fun r : ArchiveRow => r.id) _).mp hndS
  have hltp : (sortByKey (fun r : ArchiveRow => r.id) ar).Pairwise
      (fun a b => a.id < b.id) :=
    (hpw.and hne).imp (fun h => lt_of_le_of_ne h.1 h.2)
  have hsplit : (sortByKey (fun r : ArchiveRow => r.id) ar).take n ++
      (sortByKey (fun r : ArchiveRow => r.id) ar).drop n =
      sortByKey (fun r : ArchiveRow => r.id) ar :=
    List.take_append_drop n _
  have hcross : ∀ a ∈ (sortByKey (fun r : ArchiveRow => r.id) ar).take n,
      ∀ b ∈ (sortByKey (fun r : ArchiveRow => r.id) ar).drop n,
      a.id < b.id := by
    rw [← hsplit] at hltp
    exact (List.pairwise_append.mp hltp).2.2
  set vIds := ((sortByKey (fun r : ArchiveRow => r.id) ar).take n).map
    (fun r : ArchiveRow => r.id) with hvids
  have hdisj : ∀ x ∈ vIds,
      x ∉ ((sortByKey (fun r : ArchiveRow => r.id) ar).drop n).map
        (fun r : ArchiveRow => r.id) := by
    have h2 : (vIds ++ ((sortByKey (fun r : ArchiveRow => r.id) ar).drop
        n).map (fun r : ArchiveRow => r.id)).Nodup := by
      rw [hvids, ← List.map_append, hsplit]
      exact hndS
    exact (List.nodup_append.mp h2).2.2
  have hmemB : ∀ s ∈ ar, s.id ∈ vIds →
      s ∈ (sortByKey (fun r : ArchiveRow => r.id) ar).take n := by
    intro s hs hsid
    rw [hvids] at hsid
    obtain ⟨v, hv, hveq⟩ := List.mem_map.mp hsid
    have hvs : v = s :=
      key_injective_of_nodup (fun r : ArchiveRow => r.id) _ hndS v s
        ((List.take_sublist _ _).subset hv) (hperm.mem_iff.mpr hs) hveq
    exact hvs ▸ hv
  have hck : cullKeep ar n = ar.filter (fun r => !(vIds.contains r.id)) := by
    rw [cullKeep, hvids]
  have hfilv : ((sortByKey (fun r : ArchiveRow => r.id) ar).take n).filter
      (fun r => !(vIds.contains r.id)) = [] := by
    rw [List.filter_eq_nil_iff]
    intro a ha hb
    exact (not_contains_iff a.id vIds).mp hb
      (by rw [hvids]; exact List.mem_map.mpr ⟨a, ha, rfl⟩)
  have hfilr : ((sortByKey (fun r : ArchiveRow => r.id) ar).drop n).filter
      (fun r => !(vIds.contains r.id)) =
      (sortByKey (fun r : ArchiveRow => r.id) ar).drop n := by
    rw [List.filter_eq_self]
    intro a ha
    refine (not_contains_iff a.id vIds).mpr ?_
    intro hmem
    exact hdisj a.id hmem (List.mem_map.mpr ⟨a, ha, rfl⟩)
  have hfil : (sortByKey (fun r : ArchiveRow => r.id) ar).filter
      (fun r => !(vIds.contains r.id)) =
      (sortByKey (fun r : ArchiveRow => r.id) ar).drop n := by
    conv_lhs => rw [← hsplit]
    rw [List.filter_append, hfilv, hfilr, List.nil_append]
  refine ⟨?_, ?_, ?_⟩
  · rw [hck, ← (hperm.filter (fun r => !(vIds.contains r.id))).length_eq,
      hfil, List.length_drop, hperm.length_eq]
  · intro r hr
    rw [hck] at hr
    exact (List.mem_filter.mp hr).1
  · intro r hr s hs hsk
    rw [hck] at hr hsk
    have hr2 := List.mem_filter.mp hr
    have hrid : r.id ∉ vIds := (not_contains_iff r.id vIds).mp hr2.2
    have hsid : s.id ∈ vIds := by
      by_contra hns
      exact hsk (List.mem_filter.mpr ⟨hs, (not_contains_iff s.id vIds).mpr hns⟩)
    have hsv := hmemB s hs hsid
    have hrS : r ∈ (sortByKey (fun r : ArchiveRow => r.id) ar).take n ++
        (sortByKey (fun r : ArchiveRow => r.id) ar).drop n := by
      rw [hsplit]
      exact hperm.mem_iff.mpr hr2.1
    rcases List.mem_append.mp hrS with hrt | hrd
    · exact absurd (by rw [hvids]; exact List.mem_map.mpr ⟨r, hrt, rfl⟩) hrid
    · exact hcross s hsv r hrd

/-- C5: one culler cycle leaves at most the configured ceiling of
archive rows; when the count is within the ceiling nothing changes, and
when it exceeds the ceiling exactly count − ceiling rows are deleted —
those with the smallest ids — so every retained row has an id strictly
greater than every deleted row's id (the highest ids are kept). -/
theorem culler_retention (db : DB) (maxRows : Nat)
    (hnd : (db.archive.map (fun r => r.id)).Nodup) :
    ((archive_culler_cycle db maxRows).archive.length ≤ maxRows) ∧
    (db.archive.length ≤ maxRows → archive_culler_cycle db maxRows = db) ∧
    (db.archive.length > maxRows →
      (archive_culler_cycle db maxRows).archive.length = maxRows) ∧
    (∀ r ∈ (archive_culler_cycle db maxRows).archive, r ∈ db.archive) ∧
    (∀ r ∈ (archive_culler_cycle db maxRows).archive,
      ∀ s ∈ db.archive, s ∉ (archive_culler_cycle db maxRows).archive →
        s.id < r.id) := by
  have hres : db.archive.length > maxRows →
      (archive_culler_cycle db maxRows).archive =
        cullKeep db.archive (db.archive.length - maxRows) := by
    intro h
    simp only [archive_culler_cycle]
    rw [if_pos h]
    rfl
  have hid2 : ¬ db.archive.length > maxRows →
      archive_culler_cycle db maxRows = db := by
    intro h
    simp only [archive_culler_cycle]
    rw [if_neg h]
  by_cases hgt : db.archive.length > maxRows
  · have hspec := cullKeep_spec db.archive (db.archive.length - maxRows) hnd
    have hlen : (archive_culler_cycle db maxRows).archive.length = maxRows := by
      rw [hres hgt, hspec.1, Nat.sub_sub_self (le_of_lt hgt)]
    refine ⟨le_of_eq hlen, fun hle => absurd hgt (not_lt.mpr hle),
      fun _ => hlen, ?_, ?_⟩
    · intro r hr
      rw [hres hgt] at hr
      exact hspec.2.1 r hr
    · intro r hr s hs hsk
      rw [hres hgt] at hr hsk
      exact hspec.2.2 r hr s hs hsk
  · have heq := hid2 hgt
    refine ⟨?_, fun _ => heq, fun h => absurd h hgt, ?_, ?_⟩
    · rw [heq]
      exact not_lt.mp hgt
    · intro r hr
      rw [heq] at hr
      exact hr
    · intro r hr s hs hsk
      rw [heq] at hsk
      exact absurd hs hsk

/-- C5 witness: an archive of three rows with ids 3, 1, 2 and ceiling 2
is culled down to exactly two rows. -/
theorem culler_retention_witness :
    (archive_culler_cycle
        ⟨[], [⟨3, "a", String.toList "f", [], "s", "b", none, 3⟩,
              ⟨1, "b", String.toList "f", [], "s", "b", none, 1⟩,
              ⟨2, "c", String.toList "f", [], "s", "b", none, 2⟩],
         [], []⟩ 2).archive.length = 2 :=
  (culler_retention
      ⟨[], [⟨3, "a", String.toList "f", [], "s", "b", none, 3⟩,
            ⟨1, "b", String.toList "f", [], "s", "b", none, 1⟩,
            ⟨2, "c", String.toList "f", [], "s", "b", none, 2⟩],
       [], []⟩ 2 (by decide)).2.2.1 (by decide)

end Mayl
